import Mathlib

/-!
Shallow embedding of the supercharged anomaly-detection core.

A null-aware float64 column is modelled as `List (Option ℚ)`: `none` is a
row whose validity bit is unset, `some v` a valid row holding `v`.  Float64
arithmetic is idealized as exact rational arithmetic.  The two places where
the source leaves the rationals are handled exactly:

* `stddev := math.Sqrt variance` is only ever used in the tests
  `stddev == 0` and `|diff| / stddev > threshold`; over the reals (and for
  IEEE doubles with nonnegative `variance`) the first is equivalent to
  `variance == 0` and the second to `t < 0 ∨ t^2 * variance < diff^2`
  (see `zExceeds_iff_real` below), both of which are decidable over ℚ.
-/

namespace Supercharged

/-- A null-aware column of float64 values (`arrow/array.Float64`):
`none` models a null slot, `some v` a valid value. -/
abbrev Column : Type := List (Option ℚ)

/-- Errors the detection core can surface.  `emptyInput` models
`fmt.Errorf("empty column provided")`, `noValidData` models
`fmt.Errorf("no valid values found in column")`; `cancelled` models the
`CancellationError` of the error taxonomy, which the direct detector never
produces. -/
inductive DetectError : Type
  | emptyInput
  | noValidData
  | cancelled
  deriving DecidableEq, Repr

/-- The pair returned by `DetectAnomalies` in `super.go`: the boolean
anomaly mask (one bit per input row, never null) and the ordered list of
original values at flagged positions. -/
structure DetectionResult : Type where
  mask : List Bool
  anomalies : List ℚ
  deriving DecidableEq, Repr

instance {ε α : Type} [DecidableEq ε] [DecidableEq α] : DecidableEq (Except ε α) := fun a b =>
  match a, b with
  | .ok x, .ok y => decidable_of_iff (x = y) (by simp)
  | .ok _, .error _ => .isFalse (by simp)
  | .error _, .ok _ => .isFalse (by simp)
  | .error x, .error y => decidable_of_iff (x = y) (by simp)

/-- The non-null values of a column, in row order (the rows a loop
`for i; if !col.IsNull(i)` visits). -/
def validValues (col : Column) : List ℚ := col.filterMap id

/-- Step 1 of `DetectAnomalies`: the running `sum` over non-null values. -/
def sumValid (col : Column) : ℚ := (validValues col).sum

/-- Step 1 of `DetectAnomalies`: the `validCount` of non-null values. -/
def validCount (col : Column) : ℕ := (validValues col).length

/-- Step 1 of `DetectAnomalies`: `mean := sum / float64(validCount)`. -/
def mean (col : Column) : ℚ := sumValid col / (validCount col : ℚ)

/-- Step 2 of `DetectAnomalies`: the `diffs` array — null where the input
is null, `value - mean` elsewhere. -/
def diffs (col : Column) : Column :=
  col.map (Option.map (fun v => v - mean col))

/-- Step 3 of `DetectAnomalies`: `sumSquares`, the sum of squared
non-null diffs. -/
def sumSquares (col : Column) : ℚ :=
  (((diffs col).filterMap id).map (fun d => d * d)).sum

/-- Step 3 of `DetectAnomalies`: population variance
`sumSquares / float64(validCount)`. -/
def variance (col : Column) : ℚ := sumSquares col / (validCount col : ℚ)

/-- The comparison `math.Abs(diff)/math.Sqrt v > t` of steps 4–5, made
decidable: for `0 < v` it equals the real-number comparison
`|d| / Real.sqrt v > t` (lemma `zExceeds_iff_real`).  The source only
evaluates it after the `stddev == 0` branch, so `v > 0` there. -/
def zExceeds (d t v : ℚ) : Bool :=
  if t < 0 then true else decide (t * t * v < d * d)

/-- Steps 4–5 of `DetectAnomalies`: the anomaly mask built from the diffs
array — `false` at null rows, `zscore > threshold` elsewhere. -/
def maskOf (col : Column) (t : ℚ) : List Bool :=
  (diffs col).map (fun o =>
    match o with
    | none => false
    | some d => zExceeds d t (variance col))

/-- Step 6 of `DetectAnomalies`: the values at flagged non-null rows, in
row order. -/
def anomaliesOf (col : Column) (mask : List Bool) : List ℚ :=
  (col.zip mask).filterMap (fun p =>
    match p with
    | (some v, true) => some v
    | _ => none)

/-- Function `DetectAnomalies` from `super.go`: the direct two-pass algorithm.
Branches in source order: empty column error, all-null error, the
`stddev == 0` branch (equivalently `variance == 0`) returning an all-false
mask and no anomalies, and the general path building z-scores, mask and
anomaly list. -/
def detectAnomalies (col : Column) (t : ℚ) : Except DetectError DetectionResult :=
  if col.isEmpty then .error .emptyInput
  else if validCount col = 0 then .error .noValidData
  else if variance col = 0 then
    .ok ⟨List.replicate col.length false, []⟩
  else
    let mask := maskOf col t
    .ok ⟨mask, anomaliesOf col mask⟩

/-- Lemma: `zExceeds` decides exactly the real-number comparison the source makes
with `math.Abs(diff) / math.Sqrt(variance) > threshold`, whenever the
variance is positive. -/
theorem zExceeds_iff_real (d t v : ℚ) (hv : 0 < v) :
    zExceeds d t v = true ↔ (t : ℝ) < |(d : ℝ)| / Real.sqrt (v : ℝ) := by
  have hvR : (0 : ℝ) < (v : ℝ) := by exact_mod_cast hv
  have hs : 0 < Real.sqrt (v : ℝ) := Real.sqrt_pos.mpr hvR
  unfold zExceeds
  by_cases ht : t < 0
  · simp only [ht, if_pos, true_iff]
    have htR : (t : ℝ) < 0 := by exact_mod_cast ht
    have : (0 : ℝ) ≤ |(d : ℝ)| / Real.sqrt (v : ℝ) :=
      div_nonneg (abs_nonneg _) (Real.sqrt_nonneg _)
    linarith
  · have htR : (0 : ℝ) ≤ (t : ℝ) := by
      have := not_lt.mp ht
      exact_mod_cast this
    simp only [ht, if_neg, not_false_iff, decide_eq_true_eq]
    rw [lt_div_iff hs]
    constructor
    · intro h
      have hQ : ((t * t * v : ℚ) : ℝ) < ((d * d : ℚ) : ℝ) := by exact_mod_cast h
      push_cast at hQ
      nlinarith [Real.sq_sqrt hvR.le, abs_nonneg (d : ℝ), sq_abs (d : ℝ),
        mul_nonneg htR (Real.sqrt_nonneg (v : ℝ))]
    · intro h
      have hQ : ((t * t * v : ℚ) : ℝ) < ((d * d : ℚ) : ℝ) := by
        push_cast
        nlinarith [Real.sq_sqrt hvR.le, abs_nonneg (d : ℝ), sq_abs (d : ℝ),
          mul_nonneg htR (Real.sqrt_nonneg (v : ℝ))]
      exact_mod_cast hQ

theorem variance_nonneg (col : Column) : 0 ≤ variance col := by
  unfold variance sumSquares
  apply div_nonneg
  · apply List.sum_nonneg
    intro x hx
    rcases List.mem_map.mp hx with ⟨d, _, rfl⟩
    exact mul_self_nonneg d
  · exact_mod_cast Nat.zero_le _

theorem validCount_pos_of_get (col : Column) (i : ℕ) (v : ℚ)
    (h : col.get? i = some (some v)) : 0 < validCount col := by
  have hmem : (some v : Option ℚ) ∈ (col : List (Option ℚ)) := by
    exact List.get?_mem h
  have : v ∈ validValues col := by
    unfold validValues
    exact List.mem_filterMap.mpr ⟨some v, hmem, rfl⟩
  unfold validCount
  exact List.length_pos.mpr (List.ne_nil_of_mem this)

theorem not_isEmpty_of_validCount_pos (col : Column) (h : 0 < validCount col) :
    (col : List (Option ℚ)).isEmpty = false := by
  cases hcol : (col : List (Option ℚ)) with
  | nil =>
      exfalso
      unfold validCount validValues at h
      rw [hcol] at h
      simp at h
  | cons a l => simp

theorem detectAnomalies_ok_of_var_ne (col : Column) (t : ℚ)
    (hc : 0 < validCount col) (hvar : variance col ≠ 0) :
    detectAnomalies col t = .ok ⟨maskOf col t, anomaliesOf col (maskOf col t)⟩ := by
  unfold detectAnomalies
  rw [not_isEmpty_of_validCount_pos col hc]
  simp only [Bool.false_eq_true, if_false, Nat.pos_iff_ne_zero.mp hc, if_neg hvar,
    if_neg (Nat.pos_iff_ne_zero.mp hc)]

theorem maskOf_get_some (col : Column) (t : ℚ) (i : ℕ) (v : ℚ)
    (h : col.get? i = some (some v)) :
    (maskOf col t).get? i = some (zExceeds (v - mean col) t (variance col)) := by
  unfold maskOf diffs
  rw [List.get?_map, List.get?_map, h]
  rfl

theorem maskOf_get_none (col : Column) (t : ℚ) (i : ℕ)
    (h : col.get? i = some none) :
    (maskOf col t).get? i = some false := by
  unfold maskOf diffs
  rw [List.get?_map, List.get?_map, h]
  rfl

/-- C1: for a non-empty column with nonzero standard deviation, the mask bit
at each non-null index `i` equals `abs(value[i] - mean) / stddev > threshold`
with the strictly-greater comparison, `mean` and `stddev` being the
population statistics over the non-null values; a value whose z-score is
exactly the threshold is not flagged. -/
theorem mask_matches_strict_zscore (col : Column) (t : ℚ) (i : ℕ) (v : ℚ)
    (hv : col.get? i = some (some v)) (hvar : variance col ≠ 0) :
    ∃ r, detectAnomalies col t = .ok r ∧
      (r.mask.get? i = some true ↔
        (t : ℝ) < |(v : ℝ) - (mean col : ℝ)| / Real.sqrt ((variance col : ℝ))) ∧
      (|(v : ℝ) - (mean col : ℝ)| / Real.sqrt ((variance col : ℝ)) = (t : ℝ) →
        r.mask.get? i = some false) := by
  have hc : 0 < validCount col := validCount_pos_of_get col i v hv
  have hvpos : 0 < variance col := lt_of_le_of_ne (variance_nonneg col) (Ne.symm hvar)
  refine ⟨⟨maskOf col t, anomaliesOf col (maskOf col t)⟩,
    detectAnomalies_ok_of_var_ne col t hc hvar, ?_, ?_⟩
  · rw [maskOf_get_some col t i v hv]
    have := zExceeds_iff_real (v - mean col) t (variance col) hvpos
    push_cast at this
    rw [← this]
    constructor
    · intro h
      exact Option.some_injective _ h
    · intro h
      rw [h]
  · intro heq
    rw [maskOf_get_some col t i v hv]
    have hiff := zExceeds_iff_real (v - mean col) t (variance col) hvpos
    push_cast at hiff
    have : zExceeds (v - mean col) t (variance col) = false := by
      rw [Bool.eq_false_iff]
      intro hb
      have := hiff.mp hb
      rw [heq] at this
      exact lt_irrefl _ this
    rw [this]

/-- Witness for C1 at the column `[1, 3]` with threshold `2`. -/
theorem mask_matches_strict_zscore_w :
    ∃ r, detectAnomalies [some 1, some 3] 2 = .ok r ∧
      (r.mask.get? 0 = some true ↔
        ((2 : ℚ) : ℝ) < |((1 : ℚ) : ℝ) - (mean [some 1, some 3] : ℝ)| /
          Real.sqrt ((variance [some 1, some 3] : ℝ))) ∧
      (|((1 : ℚ) : ℝ) - (mean [some 1, some 3] : ℝ)| /
          Real.sqrt ((variance [some 1, some 3] : ℝ)) = ((2 : ℚ) : ℝ) →
        r.mask.get? 0 = some false) :=
  mask_matches_strict_zscore [some 1, some 3] 2 0 1 rfl (by with_unfolding_all decide)

theorem validCount_eq_zero_iff (col : Column) :
    validCount col = 0 ↔ ∀ o ∈ (col : List (Option ℚ)), o = none := by
  unfold validCount validValues
  rw [List.length_eq_zero, List.filterMap_eq_nil_iff]
  constructor
  · intro h o ho
    have := h o ho
    simpa using this
  · intro h o ho
    simpa using h o ho

theorem exists_some_iff_validCount_pos (col : Column) :
    (∃ v : ℚ, (some v : Option ℚ) ∈ (col : List (Option ℚ))) ↔ 0 < validCount col := by
  constructor
  · rintro ⟨v, hv⟩
    have : v ∈ validValues col := List.mem_filterMap.mpr ⟨some v, hv, rfl⟩
    exact List.length_pos.mpr (List.ne_nil_of_mem this)
  · intro h
    have hne : validValues col ≠ [] := by
      intro hnil
      unfold validCount at h
      rw [hnil] at h
      simp at h
    rcases List.exists_mem_of_ne_nil _ hne with ⟨v, hv⟩
    rcases List.mem_filterMap.mp hv with ⟨o, ho, hov⟩
    cases o with
    | none => simp at hov
    | some w =>
        refine ⟨w, ?_⟩
        simp at hov
        subst hov
        exact ho

/-- C4: the detector errors exactly when the precondition fails — an empty
column yields the empty-input error, a non-empty all-null column yields the
no-valid-data error, and every column with at least one non-null value
yields a result and no error. -/
theorem detect_error_partition (col : Column) (t : ℚ) :
    (detectAnomalies col t = .error .emptyInput ↔ col = ([] : List (Option ℚ))) ∧
    (detectAnomalies col t = .error .noValidData ↔
      (col ≠ ([] : List (Option ℚ)) ∧ ∀ o ∈ (col : List (Option ℚ)), o = none)) ∧
    ((∃ r, detectAnomalies col t = .ok r) ↔
      ∃ v : ℚ, (some v : Option ℚ) ∈ (col : List (Option ℚ))) := by
  by_cases h0 : (col : List (Option ℚ)).isEmpty
  · have hcol : col = ([] : List (Option ℚ)) := by
      cases hc : (col : List (Option ℚ)) with
      | nil => rfl
      | cons a l => rw [hc] at h0; simp at h0
    subst hcol
    refine ⟨by simp [detectAnomalies], by simp [detectAnomalies], ?_⟩
    simp [detectAnomalies]
  · have hcol : col ≠ ([] : List (Option ℚ)) := by
      intro hc
      rw [hc] at h0
      simp at h0
    by_cases h1 : validCount col = 0
    · have hdet : detectAnomalies col t = .error .noValidData := by
        unfold detectAnomalies
        rw [if_neg h0, if_pos h1]
      refine ⟨by simp [hdet, hcol], ?_, ?_⟩
      · rw [hdet]
        constructor
        · intro _
          exact ⟨hcol, (validCount_eq_zero_iff col).mp h1⟩
        · intro _
          rfl
      · rw [hdet]
        constructor
        · rintro ⟨r, hr⟩
          simp at hr
        · rintro hex
          have := (exists_some_iff_validCount_pos col).mp hex
          omega
    · have hc : 0 < validCount col := Nat.pos_of_ne_zero h1
      have hex : ∃ v : ℚ, (some v : Option ℚ) ∈ (col : List (Option ℚ)) :=
        (exists_some_iff_validCount_pos col).mpr hc
      have hnotall : ¬ ∀ o ∈ (col : List (Option ℚ)), o = none := by
        intro hall
        exact h1 ((validCount_eq_zero_iff col).mpr hall)
      by_cases h2 : variance col = 0
      · have hdet : detectAnomalies col t =
            .ok ⟨List.replicate (col : List (Option ℚ)).length false, []⟩ := by
          unfold detectAnomalies
          simp [h0, h1, h2]
        refine ⟨by simp [hdet, hcol], by simp [hdet, hnotall], ?_⟩
        rw [hdet]
        exact ⟨fun _ => hex, fun _ => ⟨_, rfl⟩⟩
      · have hdet := detectAnomalies_ok_of_var_ne col t hc h2
        refine ⟨by simp [hdet, hcol], by simp [hdet, hnotall], ?_⟩
        rw [hdet]
        exact ⟨fun _ => hex, fun _ => ⟨_, rfl⟩⟩

theorem filterMap_id_map_option (f : ℚ → ℚ) (l : List (Option ℚ)) :
    (l.map (Option.map f)).filterMap id = (l.filterMap id).map f := by
  induction l with
  | nil => rfl
  | cons a l ih => cases a <;> simp [ih]

/-- C5: when every non-null value of a non-empty column is the same value
`c` (population standard deviation zero), the detector succeeds with an
all-false mask and an empty anomaly list, for every threshold. -/
theorem detect_constant_column (col : Column) (t c : ℚ)
    (hc : (some c : Option ℚ) ∈ (col : List (Option ℚ)))
    (hall : ∀ v : ℚ, (some v : Option ℚ) ∈ (col : List (Option ℚ)) → v = c) :
    detectAnomalies col t =
      .ok ⟨List.replicate (col : List (Option ℚ)).length false, []⟩ := by
  have hcpos : 0 < validCount col :=
    (exists_some_iff_validCount_pos col).mp ⟨c, hc⟩
  have hrep : validValues col = List.replicate (validCount col) c := by
    rw [List.eq_replicate_iff]
    refine ⟨rfl, ?_⟩
    intro b hb
    rcases List.mem_filterMap.mp hb with ⟨o, ho, hov⟩
    cases o with
    | none => simp at hov
    | some w =>
        simp at hov
        subst hov
        exact hall _ ho
  have hn : ((validCount col : ℚ)) ≠ 0 := by
    exact_mod_cast Nat.pos_iff_ne_zero.mp hcpos
  have hmean : mean col = c := by
    unfold mean sumValid
    rw [show validValues col = List.replicate (validCount col) c from hrep]
    rw [List.sum_replicate, nsmul_eq_mul]
    field_simp
  have hvar : variance col = 0 := by
    unfold variance sumSquares
    have hdv : (diffs col).filterMap id = (validValues col).map (fun v => v - mean col) := by
      unfold diffs validValues
      exact filterMap_id_map_option _ _
    rw [hdv, hrep, hmean]
    simp [List.map_replicate, List.sum_replicate]
  unfold detectAnomalies
  rw [not_isEmpty_of_validCount_pos col hcpos]
  simp [Nat.pos_iff_ne_zero.mp hcpos, hvar]

/-- Witness for C5 at the constant column `[5, 5]` with threshold `3`. -/
theorem detect_constant_column_w :
    detectAnomalies [some 5, some 5] 3 =
      .ok ⟨List.replicate ([some 5, some 5] : List (Option ℚ)).length false, []⟩ :=
  detect_constant_column [some 5, some 5] 3 5 (by simp)
    (by
      intro v hv
      simp at hv
      exact hv)

/-- The same data with the null rows removed entirely: the column whose
rows are exactly the non-null values of `col`, in order. -/
def denull (col : Column) : Column := (validValues col).map some

/-- The mask bits at the non-null positions of `col`, in row order. -/
def validBits (col : Column) (mask : List Bool) : List Bool :=
  (col.zip mask).filterMap (fun p =>
    match p with
    | (some _, b) => some b
    | (none, _) => none)

theorem validValues_denull (col : Column) : validValues (denull col) = validValues col := by
  unfold denull validValues
  rw [List.filterMap_map]
  simp

theorem validCount_denull (col : Column) : validCount (denull col) = validCount col := by
  unfold validCount
  rw [validValues_denull]

theorem mean_denull (col : Column) : mean (denull col) = mean col := by
  unfold mean sumValid validCount
  rw [validValues_denull]

theorem sumSquares_eq (col : Column) :
    sumSquares col =
      (((validValues col).map (fun v => v - mean col)).map (fun d => d * d)).sum := by
  unfold sumSquares diffs
  rw [filterMap_id_map_option]
  rfl

theorem variance_denull (col : Column) : variance (denull col) = variance col := by
  unfold variance
  rw [sumSquares_eq, sumSquares_eq, validValues_denull, mean_denull, validCount_denull]

theorem detectAnomalies_ok_of_var_eq (col : Column) (t : ℚ)
    (hc : 0 < validCount col) (hvar : variance col = 0) :
    detectAnomalies col t = .ok ⟨List.replicate col.length false, []⟩ := by
  unfold detectAnomalies
  rw [not_isEmpty_of_validCount_pos col hc]
  simp [Nat.pos_iff_ne_zero.mp hc, hvar]

theorem maskOf_eq_map (col : Column) (t : ℚ) :
    maskOf col t = col.map (fun o =>
      match o with
      | none => false
      | some v => zExceeds (v - mean col) t (variance col)) := by
  unfold maskOf diffs
  rw [List.map_map]
  apply List.map_congr_left
  intro o _
  cases o <;> rfl

theorem validBits_map (G : Option ℚ → Bool) (col : Column) :
    validBits col (col.map G) = (validValues col).map (fun v => G (some v)) := by
  induction col with
  | nil => rfl
  | cons a l ih => cases a <;> simp [validBits, validValues, List.filterMap_cons] at ih ⊢ <;>
      exact ih

theorem anomaliesOf_map (G : Option ℚ → Bool) (col : Column) :
    anomaliesOf col (col.map G) = (validValues col).filter (fun v => G (some v)) := by
  induction col with
  | nil => rfl
  | cons a l ih =>
      cases a with
      | none => simpa [anomaliesOf, validValues, List.filterMap_cons] using ih
      | some v =>
          cases hG : G (some v) <;>
            simp [anomaliesOf, validValues, List.filterMap_cons, List.filter_cons, hG] at ih ⊢ <;>
            exact ih

/-- C6: null rows are never flagged and never influence the result — the
mask is `false` at every null row, and relative to the same data with the
nulls removed entirely (`denull`), the mean, the variance (hence the
standard deviation, its square root), the mask bits of the non-null rows,
and the anomaly list are all identical. -/
theorem detect_null_invariance (col : Column) (t v0 : ℚ)
    (h : (some v0 : Option ℚ) ∈ col) :
    ∃ r s, detectAnomalies col t = .ok r ∧ detectAnomalies (denull col) t = .ok s ∧
      mean col = mean (denull col) ∧
      variance col = variance (denull col) ∧
      (∀ i, col.get? i = some none → r.mask.get? i = some false) ∧
      validBits col r.mask = s.mask ∧
      r.anomalies = s.anomalies := by
  have hc : 0 < validCount col := (exists_some_iff_validCount_pos col).mp ⟨v0, h⟩
  have hcD : 0 < validCount (denull col) := by rw [validCount_denull]; exact hc
  have hlenD : (denull col).length = validCount col := by
    unfold denull validCount
    rw [List.length_map]
  by_cases hvar : variance col = 0
  · have hvarD : variance (denull col) = 0 := by rw [variance_denull]; exact hvar
    refine ⟨⟨List.replicate col.length false, []⟩,
      ⟨List.replicate (denull col).length false, []⟩,
      detectAnomalies_ok_of_var_eq col t hc hvar,
      detectAnomalies_ok_of_var_eq (denull col) t hcD hvarD,
      (mean_denull col).symm, (variance_denull col).symm, ?_, ?_, rfl⟩
    · intro i hi
      have hlt : i < col.length := by
        have := List.get?_eq_some.mp hi
        exact this.1
      simp [List.get?_eq_get, hlt]
    · have : List.replicate col.length false = col.map (fun _ => false) := by
        simp [List.map_const]
      rw [this, validBits_map, hlenD]
      simp [List.map_const]
      rfl
  · have hvarD : variance (denull col) ≠ 0 := by rw [variance_denull]; exact hvar
    refine ⟨⟨maskOf col t, anomaliesOf col (maskOf col t)⟩,
      ⟨maskOf (denull col) t, anomaliesOf (denull col) (maskOf (denull col) t)⟩,
      detectAnomalies_ok_of_var_ne col t hc hvar,
      detectAnomalies_ok_of_var_ne (denull col) t hcD hvarD,
      (mean_denull col).symm, (variance_denull col).symm, ?_, ?_, ?_⟩
    · intro i hi
      exact maskOf_get_none col t i hi
    · rw [maskOf_eq_map, validBits_map, maskOf_eq_map (denull col) t,
        mean_denull, variance_denull]
      unfold denull
      rw [List.map_map]
      apply List.map_congr_left
      intro v _
      rfl
    · rw [maskOf_eq_map, anomaliesOf_map, maskOf_eq_map (denull col) t, anomaliesOf_map,
        validValues_denull, mean_denull, variance_denull]

/-- Witness for C6 at the column `[null, 1, 3, null]` with threshold `1`. -/
theorem detect_null_invariance_w :
    ∃ r s, detectAnomalies [none, some 1, some 3, none] 1 = .ok r ∧
      detectAnomalies (denull [none, some 1, some 3, none]) 1 = .ok s ∧
      mean [none, some 1, some 3, none] = mean (denull [none, some 1, some 3, none]) ∧
      variance [none, some 1, some 3, none] = variance (denull [none, some 1, some 3, none]) ∧
      (∀ i, ([none, some 1, some 3, none] : Column).get? i = some none →
        r.mask.get? i = some false) ∧
      validBits [none, some 1, some 3, none] r.mask = s.mask ∧
      r.anomalies = s.anomalies :=
  detect_null_invariance [none, some 1, some 3, none] 1 1 (by simp)

/-- C7 counterexample: on `[1, 2, 3]` with threshold `0` the detector does
not flag index 1 — the value `2` equals the mean, its z-score is `0`, and
`0 > 0` is false — so a non-positive threshold does not flag every non-null
value. -/
theorem detect_nonpos_threshold_cex :
    detectAnomalies [some 1, some 2, some 3] 0 = .ok ⟨[true, false, true], [1, 3]⟩ := by
  with_unfolding_all decide

theorem zExceeds_antitone (d v t1 t2 : ℚ) (hv : 0 ≤ v) (h : t1 ≤ t2)
    (h2 : zExceeds d t2 v = true) : zExceeds d t1 v = true := by
  unfold zExceeds at h2 ⊢
  by_cases ht1 : t1 < 0
  · rw [if_pos ht1]
  · have ht1n : 0 ≤ t1 := not_lt.mp ht1
    have ht2 : ¬ t2 < 0 := not_lt.mpr (le_trans ht1n h)
    rw [if_neg ht2, decide_eq_true_eq] at h2
    rw [if_neg ht1, decide_eq_true_eq]
    have hsq : t1 * t1 ≤ t2 * t2 := mul_le_mul h h ht1n (le_trans ht1n h)
    nlinarith [mul_le_mul_of_nonneg_right hsq hv]

/-- C7 amended: for every column with at least one non-null value whose
non-null values are not all identical (nonzero population variance), a
threshold strictly less than zero flags every non-null value.  (At
threshold exactly `0` a value equal to the mean has z-score `0` and the
strict comparison `0 > 0` fails, and when all non-null values are identical
the `stddev == 0` branch returns an all-false mask.) -/
theorem detect_neg_threshold_flags_all (col : Column) (t : ℚ) (i : ℕ) (v : ℚ)
    (ht : t < 0) (hvar : variance col ≠ 0) (hi : col.get? i = some (some v)) :
    ∃ r, detectAnomalies col t = .ok r ∧ r.mask.get? i = some true := by
  have hc := validCount_pos_of_get col i v hi
  refine ⟨_, detectAnomalies_ok_of_var_ne col t hc hvar, ?_⟩
  show (maskOf col t).get? i = some true
  rw [maskOf_get_some col t i v hi]
  unfold zExceeds
  rw [if_pos ht]

/-- Witness for the amended C7 at `[1, 3]` with threshold `-1`. -/
theorem detect_neg_threshold_flags_all_w :
    ∃ r, detectAnomalies [some 1, some 3] (-1) = .ok r ∧ r.mask.get? 0 = some true :=
  detect_neg_threshold_flags_all [some 1, some 3] (-1) 0 1
    (by with_unfolding_all decide) (by with_unfolding_all decide) rfl

theorem length_filter_mono (p q : ℚ → Bool) (l : List ℚ)
    (h : ∀ v, p v = true → q v = true) :
    (l.filter p).length ≤ (l.filter q).length := by
  induction l with
  | nil => simp
  | cons a l ih =>
      by_cases hp : p a = true
      · have hq := h a hp
        simp only [List.filter_cons, hp, hq, if_pos, List.length_cons]
        omega
      · rw [Bool.not_eq_true] at hp
        cases hq : q a <;> simp [List.filter_cons, hp, hq] <;> omega

/-- C8: threshold monotonicity — for a fixed column and thresholds
`t1 ≤ t2`, the detector flags at most as many anomalies at `t2` as at
`t1`. -/
theorem detect_threshold_monotone (col : Column) (t1 t2 : ℚ)
    (r1 r2 : DetectionResult) (h : t1 ≤ t2)
    (h1 : detectAnomalies col t1 = .ok r1)
    (h2 : detectAnomalies col t2 = .ok r2) :
    r2.anomalies.length ≤ r1.anomalies.length := by
  by_cases he : (col : List (Option ℚ)).isEmpty
  · unfold detectAnomalies at h1
    rw [if_pos he] at h1
    cases h1
  · by_cases hn : validCount col = 0
    · unfold detectAnomalies at h1
      rw [if_neg he, if_pos hn] at h1
      cases h1
    · have hc := Nat.pos_of_ne_zero hn
      by_cases hv : variance col = 0
      · rw [detectAnomalies_ok_of_var_eq col t1 hc hv] at h1
        rw [detectAnomalies_ok_of_var_eq col t2 hc hv] at h2
        injection h1 with h1
        injection h2 with h2
        subst h1
        subst h2
        simp
      · rw [detectAnomalies_ok_of_var_ne col t1 hc hv] at h1
        rw [detectAnomalies_ok_of_var_ne col t2 hc hv] at h2
        injection h1 with h1
        injection h2 with h2
        subst h1
        subst h2
        show (anomaliesOf col (maskOf col t2)).length ≤ (anomaliesOf col (maskOf col t1)).length
        rw [maskOf_eq_map, anomaliesOf_map, maskOf_eq_map, anomaliesOf_map]
        apply length_filter_mono
        intro v
        exact zExceeds_antitone (v - mean col) (variance col) t1 t2 (variance_nonneg col) h

/-- Witness for C8 at `[0, 4]` with thresholds `0 ≤ 3`. -/
theorem detect_threshold_monotone_w :
    (DetectionResult.mk [false, false] []).anomalies.length ≤
      (DetectionResult.mk [true, true] [0, 4]).anomalies.length :=
  detect_threshold_monotone [some 0, some 4] 0 3 ⟨[true, true], [0, 4]⟩ ⟨[false, false], []⟩
    (by with_unfolding_all decide) (by with_unfolding_all decide) (by with_unfolding_all decide)

/-- C9: on the column `[1, 2, 3, 100, 2]` with threshold `1.99` the
detector flags exactly index 3 (the value `100`) and the anomaly list is
exactly `[100]`. -/
theorem detect_scenario_one :
    detectAnomalies [some 1, some 2, some 3, some 100, some 2] (199/100) =
      .ok ⟨[false, false, false, true, false], [100]⟩ := by
  with_unfolding_all decide

/-- The `context.Context` argument of the Go signature, reduced to the one
observable the detection pipeline could care about: whether the context is
already cancelled. -/
structure Context : Type where
  cancelled : Bool

/-- Function `DetectAnomalies(ctx, col, threshold)` as declared in `super.go`: the
function receives a context but its body never consults it, so the model
simply ignores the argument, exactly as the source does. -/
def detectAnomaliesCtx (ctx : Context) (col : Column) (t : ℚ) :
    Except DetectError DetectionResult := detectAnomalies col t

/-- Whether an outcome is the cancellation error of the error taxonomy. -/
def isCancellation : Except DetectError DetectionResult → Bool
  | .error .cancelled => true
  | _ => false

/-- C10: the direct detector is independent of its context argument — any
two contexts (including an already-cancelled one) give identical results,
and the outcome is never a cancellation error. -/
theorem detect_context_independent (c1 c2 : Context) (col : Column) (t : ℚ) :
    detectAnomaliesCtx c1 col t = detectAnomaliesCtx c2 col t ∧
    isCancellation (detectAnomaliesCtx c1 col t) = false := by
  refine ⟨rfl, ?_⟩
  unfold detectAnomaliesCtx detectAnomalies
  split_ifs <;> rfl

/-- Function `computeMeanAndVariance` from the compute-kernel variants of the
`supercharged` package: one pass accumulating `sum` and `count` over the
non-null values (the `sumsq` accumulator of the source is never used and is
dropped), `(0, 0)` when `count == 0`, then a second pass summing squared
differences from the mean, divided by `count` (population variance). -/
def computeMeanAndVariance (col : Column) : ℚ × ℚ :=
  if validCount col = 0 then (0, 0)
  else
    let m := sumValid col / (validCount col : ℚ)
    (m, ((validValues col).map (fun v => (v - m) * (v - m))).sum / (validCount col : ℚ))

/-- The mask comparison of the compute-kernel variants:
`greater_equal(abs(divide(subtract(col, mean), stddev)), threshold)`.
For positive `v` this decides `|d| / sqrt v >= t` exactly.  For `v = 0`
the float division by the zero standard deviation yields NaN when `d = 0`
(every comparison false) and ±infinity otherwise (`abs` gives +infinity,
which is `>=` any finite threshold). -/
def zExceedsGE (d t v : ℚ) : Bool :=
  if v = 0 then decide (d ≠ 0)
  else if t ≤ 0 then true else decide (t * t * v ≤ d * d)

/-- The mask of the compute-kernel `DetectAnomalies` variants: Arrow scalar
kernels propagate nulls elementwise, so the mask is null exactly at the
null input rows, and the comparison function is `greater_equal`. -/
def detectKernelMask (col : Column) (t : ℚ) : List (Option Bool) :=
  let mv := computeMeanAndVariance col
  col.map (Option.map (fun v => zExceedsGE (v - mv.1) t mv.2))

/-- The strict comparison of the expression-builder variant
(`greater(abs(divide(subtract(col, mean(col)), stddev_pop(col))), t)`),
with the same float division-by-zero behaviour at `v = 0`. -/
def zExceedsGT (d t v : ℚ) : Bool :=
  if v = 0 then decide (d ≠ 0)
  else if t < 0 then true else decide (t * t * v < d * d)

/-- The mask of the expression-builder `DetectAnomalies` variant: the
`mean` and `stddev_pop` aggregates skip nulls, so they equal `mean col`
and the square root of `variance col`; elementwise kernels propagate
nulls; the comparison is strict `greater`. -/
def detectExprsMask (col : Column) (t : ℚ) : List (Option Bool) :=
  col.map (Option.map (fun v => zExceedsGT (v - mean col) t (variance col)))

/-- C3 counterexample: on the null-free column `[1, 3]` at threshold `1`
both z-scores are exactly `1`, so the kernel variants' `greater_equal`
mask flags both rows while the direct two-pass detector flags neither. -/
theorem detect_compute_equiv_cex :
    detectKernelMask [some 1, some 3] 1 = [some true, some true] ∧
    detectAnomalies [some 1, some 3] 1 = .ok ⟨[false, false], []⟩ := by
  constructor <;> with_unfolding_all decide

/-- C3 amended: on a null-free, non-empty column with nonzero variance the
expression-builder variant's mask agrees with the direct two-pass detector
(modulo wrapping each bit in `some`); the kernel variants compare with
`greater_equal` and can differ whenever a z-score equals the threshold
exactly, and the accelerated variants also skip the direct detector's
error and zero-variance handling. -/
theorem detect_exprs_matches_direct (col : List ℚ) (t : ℚ)
    (hne : col ≠ []) (hvar : variance (col.map some) ≠ 0) :
    ∃ r, detectAnomalies (col.map some) t = .ok r ∧
      detectExprsMask (col.map some) t = r.mask.map some := by
  have hvv : validValues (col.map some) = col := by
    unfold validValues
    rw [List.filterMap_map]
    simp
  have hc : 0 < validCount (col.map some) := by
    unfold validCount
    rw [hvv]
    exact List.length_pos.mpr hne
  refine ⟨_, detectAnomalies_ok_of_var_ne _ t hc hvar, ?_⟩
  show detectExprsMask (col.map some) t = (maskOf (col.map some) t).map some
  rw [maskOf_eq_map]
  unfold detectExprsMask
  rw [List.map_map, List.map_map, List.map_map]
  apply List.map_congr_left
  intro v _
  show some (zExceedsGT (v - mean (col.map some)) t (variance (col.map some))) = _
  unfold zExceedsGT zExceeds
  rw [if_neg hvar]
  rfl

/-- Witness for the amended C3 at the column `[1, 3]` with threshold `5`. -/
theorem detect_exprs_matches_direct_w :
    ∃ r, detectAnomalies (([1, 3] : List ℚ).map some) 5 = .ok r ∧
      detectExprsMask (([1, 3] : List ℚ).map some) 5 = r.mask.map some :=
  detect_exprs_matches_direct [1, 3] 5 (by simp) (by with_unfolding_all decide)

/-- A record batch, reduced to what column extraction reads from it: the
list of its per-column slices (`record.Column(i)`), each a null-aware
column segment. -/
abbrev Record : Type := List Column

/-- Errors of the two column-extraction paths: `noRecords` models
`"no records found in CSV"`, `columnNotFound` the missing-column error,
`indexOutOfRange` the `"column index %d out of range"` check, and `noData`
the `csvreader` error `"no data for column %s"`. -/
inductive CsvError : Type
  | noRecords
  | columnNotFound
  | indexOutOfRange
  | noData
  deriving DecidableEq, Repr

/-- The schema-scan loop of `ReadSingleColumn`: the index of the first
field whose name matches, if any. -/
def findColumnIndex (schema : List String) (name : String) : Option Nat :=
  schema.findIdx? (fun s => s == name)

/-- The chunk-collection loop of `ReadSingleColumn` in `super.go`: the
slice of column `idx` of every record, in record order, failing if the
index is out of range for some record. -/
def collectChunks (idx : Nat) : List Record → Except CsvError (List Column)
  | [] => .ok []
  | r :: rs =>
      if h : idx < r.length then
        match collectChunks idx rs with
        | .ok cs => .ok (r.get ⟨idx, h⟩ :: cs)
        | .error e => .error e
      else .error .indexOutOfRange

/-- Function `ReadSingleColumn` from `super.go`: after collecting the per-record
chunks it returns `chunks[0]` both in the single-chunk path and in the
multi-chunk path — the multi-chunk path builds an `arrow.Chunked` it then
discards and, per its own comment, "just return[s] the first chunk". -/
def readSingleColumn (schema : List String) (records : List Record) (name : String) :
    Except CsvError Column :=
  if records.isEmpty then .error .noRecords
  else
    match findColumnIndex schema name with
    | none => .error .columnNotFound
    | some idx =>
      match collectChunks idx records with
      | .error e => .error e
      | .ok [] => .error .noRecords
      | .ok (c :: rest) => if rest.isEmpty then .ok c else .ok c

/-- The chunk-collection loop of `ReadSingleColumn` in the `csvreader`
package: a per-record field-index lookup followed by taking that record's
column slice.  (The source indexes `rec.Column(idx)` without a bounds
check — a schema/record mismatch would panic; it is modelled as the
defensive out-of-range error and is unreachable for schema-conforming
records.) -/
def collectNamedChunks (schema : List String) (name : String) :
    List Record → Except CsvError (List Column)
  | [] => .ok []
  | r :: rs =>
      match findColumnIndex schema name with
      | none => .error .columnNotFound
      | some idx =>
        if h : idx < r.length then
          match collectNamedChunks schema name rs with
          | .ok cs => .ok (r.get ⟨idx, h⟩ :: cs)
          | .error e => .error e
        else .error .indexOutOfRange

/-- Function `ReadSingleColumn` from the `csvreader` package: drains the record
channel, collects the named column's chunk from every record in order, and
concatenates them (`array.Concatenate`) into one contiguous column;
zero chunks is the `noData` error. -/
def readSingleColumnChan (schema : List String) (records : List Record) (name : String) :
    Except CsvError Column :=
  match collectNamedChunks schema name records with
  | .error e => .error e
  | .ok [] => .error .noData
  | .ok (c :: rest) => .ok ((c :: rest).join)

/-- The number of rows of a record (the common length of its column
slices, read off the first column). -/
def numRows (r : Record) : Nat := (r.headD []).length

/-- The total row count over a batch sequence. -/
def totalRows (records : List Record) : Nat := (records.map numRows).sum

/-- C2: at a two-batch input whose single column holds `[1]` in the first
batch and `[2]` in the second, `ReadSingleColumn` in `super.go` returns
only the first batch's slice — length 1 against a total row count of 2 —
while the streaming `csvreader` extractor returns the full concatenation
`[1, 2]` of the batches in order. -/
theorem readSingleColumn_first_chunk_only :
    readSingleColumn ["v"] [[[some 1]], [[some 2]]] "v" = .ok [some 1] ∧
    totalRows [[[some 1]], [[some 2]]] = 2 ∧
    readSingleColumnChan ["v"] [[[some 1]], [[some 2]]] "v" = .ok [some 1, some 2] := by
  refine ⟨?_, rfl, ?_⟩ <;> with_unfolding_all decide

end Supercharged
